import Mathlib

set_option maxHeartbeats 1000000

/-!
Shallow embedding of the hivemind Obsidian plugin core: the document-mapping
store (DocumentMappingManager), the sync orchestrator (SyncOrchestrator) and
the recovery engine (FileRecoveryService).  The repository ships two revisions
of FileRecoveryService in the same source file; they are embedded separately
as FileRecoveryV1 (the first, simpler revision) and FileRecoveryV2 (the
second revision, which filters candidates to markdown files and recomputes the
content hash on relink).  JavaScript strings are modelled as Lean strings;
`charCodeAt` is modelled by the character's code point (they agree on the
basic multilingual plane).  `Date.now()` and `Math.random()` draws are
modelled as explicit inputs.
-/

namespace Hivemind

/-- JS `String.prototype.split` with a one-character separator, on the
character list of the string: `"a/b"` gives `["a","b"]`, `""` gives `[""]`. -/
def splitOnChar (sep : Char) : List Char → List (List Char)
  | [] => [[]]
  | c :: rest =>
    let r := splitOnChar sep rest
    if c = sep then [] :: r
    else
      match r with
      | [] => [[c]]
      | g :: gs => (c :: g) :: gs

/-- JS `filename.replace(/\.[^/.]+\x24/, '')`: strip a trailing dot-extension
whose extension part is nonempty and free of dots and slashes. -/
def dropLastExt (cs : List Char) : List Char :=
  let r := cs.reverse
  let ext := r.takeWhile (fun c => !(c == '.' || c == '/'))
  let rest := r.drop ext.length
  match rest with
  | '.' :: before => if ext.isEmpty then cs else before.reverse
  | _ => cs

/-- Split a file name at its final dot: `"A.md"` gives `("A", "md")`; a name
with no dot keeps everything in the first component. -/
def splitAtLastDot (cs : List Char) : List Char × List Char :=
  let r := cs.reverse
  let ext := r.takeWhile (fun c => !(c == '.'))
  let rest := r.drop ext.length
  match rest with
  | '.' :: before => (before.reverse, ext.reverse)
  | _ => (cs, [])

/-- The file-name component of a path (text after the final slash). -/
def nameOf (path : String) : List Char :=
  (splitOnChar '/' path.data).getLastD []

/-- FileRecoveryService.getBasename: split the path on slashes, take the last
component, and strip its extension with the regex above. -/
def getBasename (path : String) : String :=
  ⟨dropLastExt (nameOf path)⟩

/-- A file of the Obsidian vault.  `content` is the file body;
`frontmatterId` models the metadata cache's parsed frontmatter value for the
well-known key used by findByFrontmatter. -/
structure TFile where
  path : String
  content : String
  frontmatterId : Option String := none
  deriving DecidableEq

/-- Obsidian `TFile.basename`: the file name with its extension removed. -/
def TFile.basename (f : TFile) : String :=
  ⟨(splitAtLastDot (nameOf f.path)).1⟩

/-- Obsidian `TFile.extension`: the text after the final dot of the name. -/
def TFile.extension (f : TFile) : String :=
  ⟨(splitAtLastDot (nameOf f.path)).2⟩

/-- A snapshot of the vault, as returned by `vault.getFiles()`. -/
abbrev Vault := List TFile

/-- `vault.getAbstractFileByPath` restricted to files. -/
def getFileByPath (vault : Vault) (path : String) : Option TFile :=
  vault.find? (fun f => f.path == path)

/-- `vault.getMarkdownFiles()`. -/
def getMarkdownFiles (vault : Vault) : Vault :=
  vault.filter (fun f => f.extension == ("md"))

/-- Truncation to a signed 32-bit integer, as JS `x & x` / `<<` do. -/
def toInt32 (n : Int) : Int := (n + 2 ^ 31) % 2 ^ 32 - 2 ^ 31

/-- One step of DocumentMappingManager.hashContent:
`hash = (hash << 5) - hash + char; hash = hash & hash`. -/
def hashStep (h : Int) (c : Nat) : Int := toInt32 (toInt32 (h * 32) - h + c)

/-- The accumulator of hashContent over the code units of the content. -/
def hashVal (codeUnits : List Nat) : Int := codeUnits.foldl hashStep 0

/-- DocumentMappingManager.hashContent: the decimal string of the 32-bit
accumulator; the empty string hashes to "0". -/
def hashContent (content : String) : String :=
  if content.length = 0 then toString (0 : Int)
  else toString (hashVal (content.data.map (fun c => c.toNat)))

/-- One decimal digit character (callers only pass values below 10). -/
def decDigit (n : Nat) : Char :=
  if n = 0 then '0' else if n = 1 then '1' else if n = 2 then '2'
  else if n = 3 then '3' else if n = 4 then '4' else if n = 5 then '5'
  else if n = 6 then '6' else if n = 7 then '7' else if n = 8 then '8'
  else '9'

/-- Fuelled decimal rendering of a natural number (most significant first). -/
def decCharsAux : Nat → Nat → List Char
  | 0, _ => []
  | fuel + 1, n =>
    if n < 10 then [decDigit n]
    else decCharsAux fuel (n / 10) ++ [decDigit (n % 10)]

/-- The decimal digits of `n`, as JS renders `Date.now()` in a template. -/
def decChars (n : Nat) : List Char := decCharsAux (n + 1) n

/-- The numeric value of a decimal digit character. -/
def decVal (c : Char) : Nat := c.toNat - 48

/-- Decode a decimal digit string back to the natural number it renders. -/
def decodeChars (l : List Char) : Nat :=
  l.foldl (fun a c => a * 10 + decVal c) 0

/-- DocumentMappingManager.generateDocumentId: the template string
`doc_` + `Date.now()` + `_` + a random base-36 suffix; the timestamp and the
random draw are explicit inputs of the model. -/
def generateDocumentId (now : Nat) (rand : String) : String :=
  ⟨('d' :: 'o' :: 'c' :: '_' :: decChars now) ++ '_' :: rand.data⟩

/-- The per-user mapping record (src/types LocalDocumentMapping). -/
structure LocalDocumentMapping where
  documentId : String
  localPath : String
  teamId : String
  lastSyncedHash : String
  lastKnownPath : String
  sharedAt : Nat
  sharedBy : Option String
  deriving DecidableEq

/-- The errors thrown by DocumentMappingManager's operations. -/
inductive SyncError where
  | NotFoundError
  | ConflictError
  | InvalidArgument
  deriving DecidableEq

/-- The state owned by DocumentMappingManager: the JS Map of mappings (keyed
by documentId, in insertion order) and the number of saveCallback
invocations performed so far. -/
structure MappingStore where
  mappings : List LocalDocumentMapping
  saveCount : Nat
  deriving DecidableEq

/-- JS `Map.set` keyed by documentId: replace the entry with the same key in
place, or append a fresh entry. -/
def mapSet (l : List LocalDocumentMapping) (m : LocalDocumentMapping) :
    List LocalDocumentMapping :=
  if l.any (fun x => x.documentId == m.documentId) then
    l.map (fun x => if x.documentId == m.documentId then m else x)
  else l ++ [m]

/-- DocumentMappingManager.findMappingByPath: linear scan on localPath. -/
def findMappingByPath (s : MappingStore) (path : String) :
    Option LocalDocumentMapping :=
  s.mappings.find? (fun m => m.localPath == path)

/-- DocumentMappingManager.findMappingById. -/
def findMappingById (s : MappingStore) (documentId : String) :
    Option LocalDocumentMapping :=
  s.mappings.find? (fun m => m.documentId == documentId)

/-- DocumentMappingManager.shareNewDocument.  The file's path and content are
passed explicitly (the source reads the content from the vault); `now` and
`rand` are the `Date.now()` and `Math.random()` draws of the call. -/
def shareNewDocument (s : MappingStore) (filePath content teamId userId : String)
    (now : Nat) (rand : String) : String × MappingStore :=
  let documentId := generateDocumentId now rand
  let hash := hashContent content
  let mapping : LocalDocumentMapping :=
    ⟨documentId, filePath, teamId, hash, filePath, now, some userId⟩
  (documentId, ⟨mapSet s.mappings mapping, s.saveCount + 1⟩)

/-- DocumentMappingManager.joinSharedDocument.  A thrown error is returned in
the second component and leaves the store (first component) untouched; the JS
`!localPath` guard is true for an absent argument and for the empty string. -/
def joinSharedDocument (s : MappingStore) (documentId teamId : String)
    (localPath : Option String) (now : Nat) : MappingStore × Option SyncError :=
  if (findMappingById s documentId).isSome then (s, some SyncError.ConflictError)
  else
    match localPath with
    | none => (s, some SyncError.InvalidArgument)
    | some p =>
      if p = "" then (s, some SyncError.InvalidArgument)
      else (⟨mapSet s.mappings ⟨documentId, p, teamId, "", p, now, none⟩,
              s.saveCount + 1⟩, none)

/-- DocumentMappingManager.updateMapping: set lastKnownPath to the current
localPath, then localPath to the new path; throw NotFoundError when the id is
unknown. -/
def updateMapping (s : MappingStore) (documentId newPath : String) :
    MappingStore × Option SyncError :=
  match findMappingById s documentId with
  | none => (s, some SyncError.NotFoundError)
  | some mapping =>
    let mapping' :=
      { mapping with lastKnownPath := mapping.localPath, localPath := newPath }
    (⟨mapSet s.mappings mapping', s.saveCount + 1⟩, none)

/-- DocumentMappingManager.removeMapping (idempotent delete). -/
def removeMapping (s : MappingStore) (documentId : String) : MappingStore :=
  ⟨s.mappings.filter (fun m => !(m.documentId == documentId)), s.saveCount + 1⟩

/-- DocumentMappingManager.updateLastSyncedHash: a no-op when the id is
unknown. -/
def updateLastSyncedHash (s : MappingStore) (documentId hash : String) :
    MappingStore :=
  match findMappingById s documentId with
  | none => s
  | some mapping =>
    ⟨mapSet s.mappings { mapping with lastSyncedHash := hash }, s.saveCount + 1⟩

/-- The state the SyncOrchestrator threads through modify events: the mapping
store and the single-use ignore set (`ignoreNextChange`).  The per-path
debounce timers are modelled separately by `runDebounce`. -/
structure SyncState where
  store : MappingStore
  ignoreNextChange : Finset String
  deriving DecidableEq

/-- SyncOrchestrator.handleFileModify on a vault modify event for `path`.
The returned Bool says whether the event was forwarded to the push path
(that is, whether debounceSync was invoked for it); an event for an unmapped
path is dropped, and an event for a path in the ignore set consumes the flag
and is dropped. -/
def handleFileModify (s : SyncState) (path : String) : SyncState × Bool :=
  match findMappingByPath s.store path with
  | none => (s, false)
  | some _ =>
    if path ∈ s.ignoreNextChange then
      ({ s with ignoreNextChange := s.ignoreNextChange.erase path }, false)
    else
      (s, true)

/-- SyncOrchestrator.syncFromKeepsync: apply a remote-origin update.  When the
mapped file exists and the remote content differs from its current content,
the path is inserted into the ignore set, the file is overwritten, and the
mapping's lastSyncedHash is updated from the new content. -/
def syncFromKeepsync (vault : Vault) (s : SyncState) (documentId content : String) :
    Vault × SyncState :=
  match findMappingById s.store documentId with
  | none => (vault, s)
  | some mapping =>
    match getFileByPath vault mapping.localPath with
    | none => (vault, s)
    | some file =>
      if content ≠ file.content then
        let vault' := vault.map (fun f =>
          if f.path == file.path then { f with content := content } else f)
        (vault',
          { store := updateLastSyncedHash s.store documentId (hashContent content),
            ignoreNextChange := insert file.path s.ignoreNextChange })
      else (vault, s)

/-- Timed semantics of SyncOrchestrator.debounceSync for one path.  The input
is the time-ordered list of local edits `(time, content written)`; `pending`
is the live timer `(fire time, content at schedule time)`.  A new edit clears
a live timer and starts a fresh 500ms one; a timer whose fire time has been
reached flushes, and the flushed content is the file content at fire time
(the content of the most recent edit, since every edit restarts the timer).
The result is the list of flushes `(fire time, flushed content)`. -/
def runDebounce : List (Nat × String) → Option (Nat × String) → List (Nat × String)
  | [], none => []
  | [], some pend => [pend]
  | (t, c) :: rest, none => runDebounce rest (some (t + 500, c))
  | (t, c) :: rest, some pend =>
    if pend.1 ≤ t then pend :: runDebounce rest (some (t + 500, c))
    else runDebounce rest (some (t + 500, c))

/-- FileRecoveryService.findByFrontmatter (identical in both revisions):
the first markdown file whose cached frontmatter id equals the document id. -/
def findByFrontmatter (vault : Vault) (documentId : String) : Option TFile :=
  (getMarkdownFiles vault).find? (fun file => file.frontmatterId == some documentId)

/-- The outcome chosen in the manual-recovery modal. -/
inductive RecoveryChoice where
  | relink
  | recreate
  | ignore
  deriving DecidableEq

/-- The state of one reconciliation pass: the evolving mapping store and the
relinks performed so far, as `(documentId, new path)` in order. -/
structure RecoveryRun where
  store : MappingStore
  relinks : List (String × String)
  deriving DecidableEq

namespace FileRecoveryV1

/-- Strategy 1 candidates of the first revision: all vault files whose
basename equals the stripped basename of the mapping's lastKnownPath. -/
def candidatesFor (vault : Vault) (mapping : LocalDocumentMapping) : List TFile :=
  vault.filter (fun f => f.basename == getBasename mapping.lastKnownPath)

/-- The first revision's calculateSimilarity: a constant 0.5 placeholder
(the source's content and mapping arguments are unused). -/
def calculateSimilarity (_ : String) (_ : LocalDocumentMapping) : ℚ :=
  5 / 10

/-- The first revision's findByContent: scan all vault files in order and
return the first whose hashContent equals lastSyncedHash or whose similarity
exceeds 0.9 (never, as the similarity is constantly 0.5). -/
def findByContent (vault : Vault) (mapping : LocalDocumentMapping) : Option TFile :=
  vault.find? (fun file =>
    hashContent file.content == mapping.lastSyncedHash
      || decide (calculateSimilarity file.content mapping > 9 / 10))

/-- The first revision's relinkMapping: only
`updateMapping(documentId, file.path)` (no content read, no hash update).
Only the target's path is consulted. -/
def relinkMapping (run : RecoveryRun) (mapping : LocalDocumentMapping)
    (file : TFile) : RecoveryRun :=
  ⟨(updateMapping run.store mapping.documentId file.path).1,
    run.relinks ++ [(mapping.documentId, file.path)]⟩

/-- The first revision's promptUserForRecovery: the relink and recreate
choices are no-ops (the relink case is an empty branch and recreateFromRemote
only logs); ignore removes the mapping. -/
def promptUserForRecovery (run : RecoveryRun) (mapping : LocalDocumentMapping)
    (choice : RecoveryChoice) : RecoveryRun :=
  match choice with
  | RecoveryChoice.relink => run
  | RecoveryChoice.recreate => run
  | RecoveryChoice.ignore => ⟨removeMapping run.store mapping.documentId, run.relinks⟩

/-- The file the automatic strategies of attemptRecovery (first revision)
would relink to: a unique basename candidate; otherwise, when there is some
candidate or a nonempty lastSyncedHash, the findByContent match; otherwise the
frontmatter match.  `none` falls through to the manual modal. -/
def strategyTarget (vault : Vault) (mapping : LocalDocumentMapping) : Option TFile :=
  let candidates := candidatesFor vault mapping
  if candidates.length = 1 then candidates.head?
  else
    match
      (if candidates.length > 0 ∨ mapping.lastSyncedHash ≠ "" then
        findByContent vault mapping
       else none) with
    | some f => some f
    | none => findByFrontmatter vault mapping.documentId

/-- One iteration of attemptRecovery's loop (first revision). -/
def recoverOne (vault : Vault) (choices : String → RecoveryChoice)
    (run : RecoveryRun) (mapping : LocalDocumentMapping) : RecoveryRun :=
  match strategyTarget vault mapping with
  | some f => relinkMapping run mapping f
  | none => promptUserForRecovery run mapping (choices mapping.documentId)

/-- attemptRecovery (first revision): process the orphan snapshot in order. -/
def attemptRecovery (vault : Vault) (choices : String → RecoveryChoice)
    (run : RecoveryRun) (orphans : List LocalDocumentMapping) : RecoveryRun :=
  orphans.foldl (recoverOne vault choices) run

/-- reconcileMappings (first revision): collect the mappings whose localPath
resolves to no vault file and attempt recovery on them. -/
def reconcileMappings (vault : Vault) (choices : String → RecoveryChoice)
    (store : MappingStore) : RecoveryRun :=
  let orphans := store.mappings.filter (fun m => !(getFileByPath vault m.localPath).isSome)
  attemptRecovery vault choices ⟨store, []⟩ orphans

end FileRecoveryV1

/-- Whether `needle` occurs at the head of `haystack`. -/
def matchesHead : List Char → List Char → Bool
  | [], _ => true
  | _ :: _, [] => false
  | a :: as, b :: bs => a == b && matchesHead as bs

/-- JS `String.prototype.includes`: substring occurrence. -/
def includesChars (haystack needle : List Char) : Bool :=
  match haystack with
  | [] => needle.isEmpty
  | _ :: rest => matchesHead needle haystack || includesChars rest needle

namespace FileRecoveryV2

/-- Strategy 1 candidates of the second revision: vault files whose basename
matches AND whose extension is exactly `md`. -/
def candidatesFor (vault : Vault) (mapping : LocalDocumentMapping) : List TFile :=
  vault.filter (fun f =>
    f.basename == getBasename mapping.lastKnownPath && f.extension == ("md"))

/-- The second revision's calculateSimilarity.  `hashFn` models the sha256
hex digest used by this revision, as an abstract deterministic function of
the content. -/
def calculateSimilarity (hashFn : String → String) (content : String)
    (mapping : LocalDocumentMapping) : ℚ :=
  if mapping.lastSyncedHash = "" then 0
  else if hashFn content = mapping.lastSyncedHash then 1
  else if includesChars content.data mapping.documentId.data then 95 / 100
  else
    let lines := splitOnChar '\n' content.data
    let hasHeaders := lines.any (fun line => line.headD ' ' == '#')
    let hasContent := decide (lines.length > 5)
    if hasHeaders && hasContent then 7 / 10
    else if hasContent then 5 / 10
    else 3 / 10

/-- The second revision's findByContent: scan the markdown files in order and
return the first with an exact hash match or similarity above 0.9. -/
def findByContent (hashFn : String → String) (vault : Vault)
    (mapping : LocalDocumentMapping) : Option TFile :=
  (getMarkdownFiles vault).find? (fun file =>
    hashFn file.content == mapping.lastSyncedHash
      || decide (calculateSimilarity hashFn file.content mapping > 9 / 10))

/-- The second revision's relinkMapping: re-read the target file's content,
overwrite the mapping's lastSyncedHash with its hash in place (the snapshot
record and the stored record are the same JS object), then
`updateMapping(documentId, file.path)`. -/
def relinkMapping (hashFn : String → String) (run : RecoveryRun)
    (mapping : LocalDocumentMapping) (file : TFile) : RecoveryRun :=
  let ms := run.store.mappings.map (fun x =>
    if x.documentId == mapping.documentId then
      { x with lastSyncedHash := hashFn file.content }
    else x)
  ⟨(updateMapping ⟨ms, run.store.saveCount⟩ mapping.documentId file.path).1,
    run.relinks ++ [(mapping.documentId, file.path)]⟩

/-- The file the automatic strategies of attemptRecovery (second revision)
would relink to; `none` falls through to the manual modal. -/
def strategyTarget (hashFn : String → String) (vault : Vault)
    (mapping : LocalDocumentMapping) : Option TFile :=
  let candidates := candidatesFor vault mapping
  if candidates.length = 1 then candidates.head?
  else
    match
      (if candidates.length > 0 ∨ mapping.lastSyncedHash ≠ "" then
        findByContent hashFn vault mapping
       else none) with
    | some f => some f
    | none => findByFrontmatter vault mapping.documentId

/-- The per-mapping outcome of the second revision's loop.  The manual modal
(promptUserForRecovery) is interactive UI driven by the user's choice and a
confirm dialog; it is reported as `manual` with the run state unchanged. -/
inductive Outcome where
  | relinkedTo (file : TFile)
  | manual
  deriving DecidableEq

/-- One iteration of attemptRecovery's loop (second revision), up to the
manual modal. -/
def recoverOne (hashFn : String → String) (vault : Vault) (run : RecoveryRun)
    (mapping : LocalDocumentMapping) : RecoveryRun × Outcome :=
  match strategyTarget hashFn vault mapping with
  | some f => (relinkMapping hashFn run mapping f, Outcome.relinkedTo f)
  | none => (run, Outcome.manual)

end FileRecoveryV2

/-! ### General lemmas about the store operations -/

theorem toInt32_bounds (n : Int) : -2 ^ 31 ≤ toInt32 n ∧ toInt32 n < 2 ^ 31 := by
  unfold toInt32
  have h1 : (0 : Int) ≤ (n + 2 ^ 31) % 2 ^ 32 := Int.emod_nonneg _ (by norm_num)
  have h2 : (n + 2 ^ 31) % 2 ^ 32 < 2 ^ 32 := Int.emod_lt_of_pos _ (by norm_num)
  omega

theorem hashVal_bounds (codeUnits : List Nat) :
    -2 ^ 31 ≤ hashVal codeUnits ∧ hashVal codeUnits < 2 ^ 31 := by
  suffices h : ∀ (l : List Nat) (a : Int),
      -2 ^ 31 ≤ a ∧ a < 2 ^ 31 → -2 ^ 31 ≤ l.foldl hashStep a ∧ l.foldl hashStep a < 2 ^ 31 by
    exact h codeUnits 0 (by norm_num)
  intro l
  induction l with
  | nil => intro a ha; simpa using ha
  | cons c cs ih =>
    intro a _
    have := toInt32_bounds (toInt32 (a * 32) - a + c)
    exact ih (hashStep a c) this

theorem find?_mapSet_self (l : List LocalDocumentMapping) (m : LocalDocumentMapping) :
    (mapSet l m).find? (fun x => x.documentId == m.documentId) = some m := by
  unfold mapSet
  split
  · rename_i hany
    induction l with
    | nil => simp at hany
    | cons a as ih =>
      simp only [List.any_cons, Bool.or_eq_true] at hany
      cases ha : (a.documentId == m.documentId) with
      | true =>
        simp only [List.map_cons, ha, if_true]
        rw [List.find?_cons_of_pos _ (by simp)]
      | false =>
        simp only [List.map_cons, ha, if_false]
        rw [List.find?_cons_of_neg _ (by simp [ha])]
        exact ih (hany.resolve_left (by simp [ha]))
  · rename_i hany
    have hnone : l.find? (fun x => x.documentId == m.documentId) = none := by
      rw [List.find?_eq_none]
      intro x hx hbx
      exact hany (List.any_eq_true.mpr ⟨x, hx, hbx⟩)
    rw [List.find?_append, hnone]
    simp [List.find?]

theorem find?_mapSet_other (l : List LocalDocumentMapping) (m : LocalDocumentMapping)
    (d : String) (hd : d ≠ m.documentId) :
    (mapSet l m).find? (fun x => x.documentId == d) =
      l.find? (fun x => x.documentId == d) := by
  have hmd : (m.documentId == d) = false := by
    simp only [beq_eq_false_iff_ne, ne_eq]
    exact fun h => hd h.symm
  unfold mapSet
  split
  · rename_i hany
    clear hany
    induction l with
    | nil => simp
    | cons a as ih =>
      cases ha : (a.documentId == m.documentId) with
      | true =>
        have ha' : a.documentId = m.documentId := by simpa using ha
        have had : (a.documentId == d) = false := by rw [ha']; exact hmd
        have hhead : (if a.documentId == m.documentId then m else a) = m := by
          simp [ha]
        simp only [List.map_cons, hhead, List.find?_cons, hmd, had]
        exact ih
      | false =>
        have hhead : (if a.documentId == m.documentId then m else a) = a := by
          simp [ha]
        cases had : (a.documentId == d) with
        | true => simp only [List.map_cons, hhead, List.find?_cons, had]
        | false =>
          simp only [List.map_cons, hhead, List.find?_cons, had]
          exact ih
  · rw [List.find?_append]
    have h1 : [m].find? (fun x => x.documentId == d) = none := by
      simp only [List.find?_cons, hmd, List.find?_nil]
    rw [h1]
    cases l.find? (fun x => x.documentId == d) <;> rfl

theorem mem_mapSet (l : List LocalDocumentMapping) (m x : LocalDocumentMapping)
    (hx : x ∈ mapSet l m) :
    x = m ∨ (x ∈ l ∧ x.documentId ≠ m.documentId) := by
  unfold mapSet at hx
  split at hx
  · rcases List.mem_map.mp hx with ⟨y, hy, hgy⟩
    cases hyid : (y.documentId == m.documentId) with
    | true => left; rw [hyid] at hgy; simp at hgy; exact hgy.symm
    | false =>
      right
      rw [hyid] at hgy; simp at hgy
      subst hgy
      exact ⟨hy, by simpa using hyid⟩
  · rename_i hany
    rcases List.mem_append.mp hx with h | h
    · right
      refine ⟨h, fun heq => hany ?_⟩
      exact List.any_eq_true.mpr ⟨x, h, by simp [heq]⟩
    · left
      rw [List.mem_singleton] at h
      exact h

theorem find?_filter_of_imp {α : Type} (l : List α) (p q : α → Bool)
    (hpq : ∀ x, p x = true → q x = true) :
    (l.filter q).find? p = l.find? p := by
  induction l with
  | nil => rfl
  | cons a as ih =>
    cases hq : q a with
    | true =>
      rw [List.filter_cons_of_pos hq]
      cases hp : p a with
      | true => simp only [List.find?_cons, hp]
      | false => simp only [List.find?_cons, hp]; exact ih
    | false =>
      have hp : p a = false := by
        cases hp : p a with
        | true => exact absurd (hpq a hp) (by simp [hq])
        | false => rfl
      rw [List.filter_cons_of_neg (by simp [hq])]
      simp only [List.find?_cons, hp]
      exact ih

theorem find?_map_id_preserving (l : List LocalDocumentMapping)
    (g : LocalDocumentMapping → LocalDocumentMapping)
    (hg : ∀ x, (g x).documentId = x.documentId) (d : String) :
    (l.map g).find? (fun x => x.documentId == d) =
      (l.find? (fun x => x.documentId == d)).map g := by
  induction l with
  | nil => rfl
  | cons a as ih =>
    cases ha : (a.documentId == d) with
    | true =>
      have hga : ((g a).documentId == d) = true := by rw [hg a]; exact ha
      simp only [List.map_cons, List.find?_cons, hga, ha, Option.map_some']
    | false =>
      have hga : ((g a).documentId == d) = false := by rw [hg a]; exact ha
      simp only [List.map_cons, List.find?_cons, hga, ha]
      exact ih

theorem find?_eq_of_mem_nodup (l : List LocalDocumentMapping)
    (m : LocalDocumentMapping)
    (hnd : (l.map (fun x => x.documentId)).Nodup) (hm : m ∈ l) :
    l.find? (fun x => x.documentId == m.documentId) = some m := by
  induction l with
  | nil => simp at hm
  | cons a as ih =>
    simp only [List.map_cons, List.nodup_cons] at hnd
    rcases List.mem_cons.mp hm with h | h
    · subst h
      simp [List.find?_cons]
    · have haid : (a.documentId == m.documentId) = false := by
        simp only [beq_eq_false_iff_ne, ne_eq]
        intro heq
        exact hnd.1 (heq ▸ List.mem_map.mpr ⟨m, h, rfl⟩)
      simp only [List.find?_cons, haid]
      exact ih hnd.2 h

theorem mem_mapSet_self (l : List LocalDocumentMapping) (m : LocalDocumentMapping) :
    m ∈ mapSet l m := by
  unfold mapSet
  split
  · rename_i hany
    obtain ⟨y, hy, hyid⟩ := List.any_eq_true.mp hany
    exact List.mem_map.mpr ⟨y, hy, by simp [hyid]⟩
  · exact List.mem_append.mpr (Or.inr (List.mem_singleton.mpr rfl))

theorem exists_path_updateLastSyncedHash (s : MappingStore) (d h : String)
    (m : LocalDocumentMapping) (hm : findMappingById s d = some m) :
    ∃ x ∈ (updateLastSyncedHash s d h).mappings, x.localPath = m.localPath := by
  unfold updateLastSyncedHash
  rw [hm]
  exact ⟨{ m with lastSyncedHash := h },
    mem_mapSet_self s.mappings { m with lastSyncedHash := h }, rfl⟩

/-! ### Claim C1 -/

/-- C1: echo suppression is single-consume.  Applying a remote-origin update
that actually overwrites the local file inserts the path into the ignore set;
the very next local modify event for that path consumes the flag (it is
absent afterwards) and is not forwarded to the push path; and any modify
event for a mapped path whose flag is absent is forwarded normally — in
particular the event right after the consuming one. -/
theorem echo_suppression_single_consume
    (vault : Vault) (s : SyncState) (documentId content : String)
    (mapping : LocalDocumentMapping) (file : TFile)
    (h1 : findMappingById s.store documentId = some mapping)
    (h2 : getFileByPath vault mapping.localPath = some file)
    (h3 : content ≠ file.content) :
    file.path ∈ (syncFromKeepsync vault s documentId content).2.ignoreNextChange ∧
    (handleFileModify (syncFromKeepsync vault s documentId content).2 file.path).2
        = false ∧
    file.path ∉
      (handleFileModify (syncFromKeepsync vault s documentId content).2
        file.path).1.ignoreNextChange ∧
    handleFileModify
        (handleFileModify (syncFromKeepsync vault s documentId content).2 file.path).1
        file.path =
      ((handleFileModify (syncFromKeepsync vault s documentId content).2 file.path).1,
        true) ∧
    (∀ s' : SyncState, (findMappingByPath s'.store file.path).isSome →
      file.path ∉ s'.ignoreNextChange →
      handleFileModify s' file.path = (s', true)) := by
  have hsync : (syncFromKeepsync vault s documentId content).2 =
      { store := updateLastSyncedHash s.store documentId (hashContent content),
        ignoreNextChange := insert file.path s.ignoreNextChange } := by
    unfold syncFromKeepsync
    simp only [h1, h2]
    rw [if_pos h3]
  have hforward : ∀ s' : SyncState, (findMappingByPath s'.store file.path).isSome →
      file.path ∉ s'.ignoreNextChange →
      handleFileModify s' file.path = (s', true) := by
    intro s' hsome hnot
    obtain ⟨m', hm'⟩ := Option.isSome_iff_exists.mp hsome
    unfold handleFileModify
    rw [hm', if_neg hnot]
  have hpath : mapping.localPath = file.path := by
    have h4 := List.find?_some h2
    exact (by simpa using h4 : file.path = mapping.localPath).symm
  have hsome1 :
      (findMappingByPath (syncFromKeepsync vault s documentId content).2.store
        file.path).isSome := by
    rw [hsync]
    obtain ⟨x, hx, hxp⟩ :=
      exists_path_updateLastSyncedHash s.store documentId (hashContent content)
        mapping h1
    unfold findMappingByPath
    exact List.find?_isSome.mpr ⟨x, hx, by simp [hxp, hpath]⟩
  have hin : file.path ∈ (syncFromKeepsync vault s documentId content).2.ignoreNextChange := by
    rw [hsync]
    exact Finset.mem_insert_self _ _
  have hstep : handleFileModify (syncFromKeepsync vault s documentId content).2 file.path =
      ({ (syncFromKeepsync vault s documentId content).2 with
          ignoreNextChange :=
            (syncFromKeepsync vault s documentId content).2.ignoreNextChange.erase
              file.path }, false) := by
    obtain ⟨m', hm'⟩ := Option.isSome_iff_exists.mp hsome1
    unfold handleFileModify
    rw [hm', if_pos hin]
  refine ⟨hin, by rw [hstep], ?_, ?_, hforward⟩
  · rw [hstep]
    exact Finset.not_mem_erase _ _
  · refine hforward _ ?_ ?_
    · rw [hstep]
      exact hsome1
    · rw [hstep]
      exact Finset.not_mem_erase _ _

theorem echo_suppression_single_consume_witness :
    (findMappingById (⟨⟨[⟨"d1", "n.md", "t1", "h0", "n.md", 0, none⟩], 0⟩,
        ∅⟩ : SyncState).store ("d1") =
      some ⟨"d1", "n.md", "t1", "h0", "n.md", 0, none⟩) ∧
    (getFileByPath [⟨"n.md", "old", none⟩]
        (⟨"d1", "n.md", "t1", "h0", "n.md", 0, none⟩ :
          LocalDocumentMapping).localPath = some ⟨"n.md", "old", none⟩) ∧
    ("new" : String) ≠ ("old") ∧
    ((⟨"n.md", "old", none⟩ : TFile).path ∈
      (syncFromKeepsync [⟨"n.md", "old", none⟩]
        ⟨⟨[⟨"d1", "n.md", "t1", "h0", "n.md", 0, none⟩], 0⟩, ∅⟩
        ("d1") ("new")).2.ignoreNextChange ∧
      (handleFileModify
        (syncFromKeepsync [⟨"n.md", "old", none⟩]
          ⟨⟨[⟨"d1", "n.md", "t1", "h0", "n.md", 0, none⟩], 0⟩, ∅⟩
          ("d1") ("new")).2 (⟨"n.md", "old", none⟩ : TFile).path).2 = false ∧
      (⟨"n.md", "old", none⟩ : TFile).path ∉
        (handleFileModify
          (syncFromKeepsync [⟨"n.md", "old", none⟩]
            ⟨⟨[⟨"d1", "n.md", "t1", "h0", "n.md", 0, none⟩], 0⟩, ∅⟩
            ("d1") ("new")).2 (⟨"n.md", "old", none⟩ : TFile).path).1.ignoreNextChange ∧
      handleFileModify
          (handleFileModify
            (syncFromKeepsync [⟨"n.md", "old", none⟩]
              ⟨⟨[⟨"d1", "n.md", "t1", "h0", "n.md", 0, none⟩], 0⟩, ∅⟩
              ("d1") ("new")).2 (⟨"n.md", "old", none⟩ : TFile).path).1
          (⟨"n.md", "old", none⟩ : TFile).path =
        ((handleFileModify
            (syncFromKeepsync [⟨"n.md", "old", none⟩]
              ⟨⟨[⟨"d1", "n.md", "t1", "h0", "n.md", 0, none⟩], 0⟩, ∅⟩
              ("d1") ("new")).2 (⟨"n.md", "old", none⟩ : TFile).path).1, true) ∧
      (∀ s' : SyncState,
        (findMappingByPath s'.store (⟨"n.md", "old", none⟩ : TFile).path).isSome →
        (⟨"n.md", "old", none⟩ : TFile).path ∉ s'.ignoreNextChange →
        handleFileModify s' (⟨"n.md", "old", none⟩ : TFile).path = (s', true))) :=
  ⟨by decide, by decide, by decide,
    echo_suppression_single_consume [⟨"n.md", "old", none⟩]
      ⟨⟨[⟨"d1", "n.md", "t1", "h0", "n.md", 0, none⟩], 0⟩, ∅⟩
      ("d1") ("new") ⟨"d1", "n.md", "t1", "h0", "n.md", 0, none⟩
      ⟨"n.md", "old", none⟩ (by decide) (by decide) (by decide)⟩

/-! ### Claim C2 -/

/-- C2: the debounce coalesces.  For one mapped path, any sequence of N >= 1
local edits in which every edit arrives strictly within the 500ms quiet
window of the previous one produces exactly one flush, scheduled 500ms after
the last edit, carrying only the content of the last edit; each new edit
cancels and replaces the pending timer, so intermediate edits produce no
flush. -/
theorem debounce_coalesces (e : Nat × String) (es : List (Nat × String))
    (h : List.Chain (fun a b => b.1 < a.1 + 500) e es) :
    runDebounce (e :: es) none = [((es.getLastD e).1 + 500, (es.getLastD e).2)] := by
  have haux : ∀ (l : List (Nat × String)) (t : Nat) (c : String),
      List.Chain (fun a b => b.1 < a.1 + 500) (t, c) l →
      runDebounce l (some (t + 500, c)) =
        [((l.getLastD (t, c)).1 + 500, (l.getLastD (t, c)).2)] := by
    intro l
    induction l with
    | nil => intro t c _; rfl
    | cons e2 rest ih =>
      intro t c hch
      obtain ⟨hlt, hch2⟩ := List.chain_cons.mp hch
      obtain ⟨t2, c2⟩ := e2
      have hnot : ¬ (t + 500 ≤ t2) := by
        simp only at hlt
        omega
      show runDebounce ((t2, c2) :: rest) (some (t + 500, c)) = _
      unfold runDebounce
      rw [if_neg hnot]
      rw [List.getLastD_cons]
      exact ih t2 c2 hch2
  obtain ⟨t, c⟩ := e
  show runDebounce ((t, c) :: es) none = _
  unfold runDebounce
  exact haux es t c h

theorem debounce_coalesces_witness :
    List.Chain (fun a b => b.1 < a.1 + 500) ((0 : Nat), ("a" : String))
      [(100, "b"), (300, "c")] ∧
    runDebounce [((0 : Nat), ("a" : String)), (100, "b"), (300, "c")] none =
      [(800, "c")] := by
  have hch : List.Chain (fun a b => b.1 < a.1 + 500) ((0 : Nat), ("a" : String))
      [(100, "b"), (300, "c")] :=
    List.Chain.cons (by decide) (List.Chain.cons (by decide) List.Chain.nil)
  exact ⟨hch, debounce_coalesces ((0 : Nat), ("a" : String)) [(100, "b"), (300, "c")] hch⟩

/-! ### Lemmas about the first revision of the recovery engine -/

theorem head?_mem {α : Type} {l : List α} {a : α} (h : l.head? = some a) :
    a ∈ l := by
  cases l with
  | nil => simp at h
  | cons b bs =>
    simp only [List.head?_cons, Option.some.injEq] at h
    exact h ▸ List.mem_cons_self b bs

theorem strategyTarget_mem_v1 (vault : Vault) (m : LocalDocumentMapping)
    (f : TFile) (h : FileRecoveryV1.strategyTarget vault m = some f) :
    f ∈ vault := by
  simp only [FileRecoveryV1.strategyTarget] at h
  split at h
  · exact List.mem_of_mem_filter (head?_mem h)
  · split at h
    · rename_i f' heq
      rw [Option.some.injEq] at h
      subst h
      split at heq
      · exact List.mem_of_find?_eq_some heq
      · simp at heq
    · exact List.mem_of_mem_filter (List.mem_of_find?_eq_some h)

theorem resolves_of_mem (vault : Vault) (f : TFile) (hf : f ∈ vault) :
    (getFileByPath vault f.path).isSome = true := by
  unfold getFileByPath
  exact List.find?_isSome.mpr ⟨f, hf, by simp⟩

theorem mem_relink_store_v1 (run : RecoveryRun) (m : LocalDocumentMapping)
    (f : TFile) (x : LocalDocumentMapping)
    (hx : x ∈ (FileRecoveryV1.relinkMapping run m f).store.mappings) :
    x.localPath = f.path ∨
      (x ∈ run.store.mappings ∧ x.documentId ≠ m.documentId) := by
  unfold FileRecoveryV1.relinkMapping updateMapping at hx
  cases hfind : findMappingById run.store m.documentId with
  | none =>
    simp only [hfind] at hx
    right
    refine ⟨hx, fun heq => ?_⟩
    unfold findMappingById at hfind
    rw [List.find?_eq_none] at hfind
    exact hfind x hx (by simp [heq])
  | some cur =>
    simp only [hfind] at hx
    have hcurid : cur.documentId = m.documentId := by
      have h2 := List.find?_some hfind
      simpa using h2
    rcases mem_mapSet _ _ _ hx with h | ⟨hmem2, hne⟩
    · left; rw [h]
    · right
      exact ⟨hmem2, by simpa [hcurid] using hne⟩

theorem mem_prompt_store_v1 (run : RecoveryRun) (m : LocalDocumentMapping)
    (choice : RecoveryChoice) (x : LocalDocumentMapping)
    (hx : x ∈ (FileRecoveryV1.promptUserForRecovery run m choice).store.mappings) :
    x ∈ run.store.mappings := by
  cases choice with
  | relink => exact hx
  | recreate => exact hx
  | ignore =>
    exact (List.mem_filter.mp hx).1

theorem recoverOne_invariant_v1 (vault : Vault)
    (choices : String → RecoveryChoice) (run : RecoveryRun)
    (o : LocalDocumentMapping) (rest : List LocalDocumentMapping)
    (hinv : ∀ x ∈ run.store.mappings,
      (getFileByPath vault x.localPath).isSome = true ∨
      FileRecoveryV1.strategyTarget vault x = none ∨ ∃ o2 ∈ o :: rest, x = o2) :
    ∀ x ∈ (FileRecoveryV1.recoverOne vault choices run o).store.mappings,
      (getFileByPath vault x.localPath).isSome = true ∨
      FileRecoveryV1.strategyTarget vault x = none ∨ ∃ o2 ∈ rest, x = o2 := by
  intro x hx
  cases hst : FileRecoveryV1.strategyTarget vault o with
  | some f =>
    rw [show FileRecoveryV1.recoverOne vault choices run o =
        FileRecoveryV1.relinkMapping run o f from by
      unfold FileRecoveryV1.recoverOne; rw [hst]] at hx
    rcases mem_relink_store_v1 run o f x hx with h | ⟨hmem, hne⟩
    · left
      rw [h]
      exact resolves_of_mem vault f (strategyTarget_mem_v1 vault o f hst)
    · rcases hinv x hmem with h1 | h1 | ⟨o2, ho2, hxo2⟩
      · exact Or.inl h1
      · exact Or.inr (Or.inl h1)
      · rcases List.mem_cons.mp ho2 with he | he
        · exact absurd (by rw [hxo2, he]) hne
        · exact Or.inr (Or.inr ⟨o2, he, hxo2⟩)
  | none =>
    rw [show FileRecoveryV1.recoverOne vault choices run o =
        FileRecoveryV1.promptUserForRecovery run o (choices o.documentId) from by
      unfold FileRecoveryV1.recoverOne; rw [hst]] at hx
    have hmem := mem_prompt_store_v1 run o (choices o.documentId) x hx
    rcases hinv x hmem with h1 | h1 | ⟨o2, ho2, hxo2⟩
    · exact Or.inl h1
    · exact Or.inr (Or.inl h1)
    · rcases List.mem_cons.mp ho2 with he | he
      · refine Or.inr (Or.inl ?_)
        rw [hxo2, he]
        exact hst
      · exact Or.inr (Or.inr ⟨o2, he, hxo2⟩)

theorem attemptRecovery_invariant_v1 (vault : Vault)
    (choices : String → RecoveryChoice) :
    ∀ (pending : List LocalDocumentMapping) (run : RecoveryRun),
      (∀ x ∈ run.store.mappings,
        (getFileByPath vault x.localPath).isSome = true ∨
        FileRecoveryV1.strategyTarget vault x = none ∨ ∃ o2 ∈ pending, x = o2) →
      ∀ x ∈ (FileRecoveryV1.attemptRecovery vault choices run pending).store.mappings,
        (getFileByPath vault x.localPath).isSome = true ∨
        FileRecoveryV1.strategyTarget vault x = none := by
  intro pending
  induction pending with
  | nil =>
    intro run hinv x hx
    rcases hinv x hx with h | h | ⟨o2, ho2, _⟩
    · exact Or.inl h
    · exact Or.inr h
    · exact absurd ho2 (List.not_mem_nil o2)
  | cons o rest ih =>
    intro run hinv x hx
    rw [show FileRecoveryV1.attemptRecovery vault choices run (o :: rest) =
        FileRecoveryV1.attemptRecovery vault choices
          (FileRecoveryV1.recoverOne vault choices run o) rest from rfl] at hx
    exact ih (FileRecoveryV1.recoverOne vault choices run o)
      (recoverOne_invariant_v1 vault choices run o rest hinv) x hx

theorem reconcile_postcondition_v1 (vault : Vault)
    (choices : String → RecoveryChoice) (store : MappingStore) :
    ∀ x ∈ (FileRecoveryV1.reconcileMappings vault choices store).store.mappings,
      (getFileByPath vault x.localPath).isSome = true ∨
      FileRecoveryV1.strategyTarget vault x = none := by
  apply attemptRecovery_invariant_v1
  intro x hx
  by_cases hres : (getFileByPath vault x.localPath).isSome = true
  · exact Or.inl hres
  · refine Or.inr (Or.inr ⟨x, ?_, rfl⟩)
    refine List.mem_filter.mpr ⟨hx, ?_⟩
    simp only [Bool.not_eq_true] at hres
    simp [hres]

theorem attemptRecovery_no_relinks_v1 (vault : Vault)
    (choices : String → RecoveryChoice) :
    ∀ (orphans : List LocalDocumentMapping) (run : RecoveryRun),
      (∀ o ∈ orphans, FileRecoveryV1.strategyTarget vault o = none) →
      (FileRecoveryV1.attemptRecovery vault choices run orphans).relinks =
        run.relinks := by
  intro orphans
  induction orphans with
  | nil => intro run _; rfl
  | cons o rest ih =>
    intro run hall
    rw [show FileRecoveryV1.attemptRecovery vault choices run (o :: rest) =
        FileRecoveryV1.attemptRecovery vault choices
          (FileRecoveryV1.recoverOne vault choices run o) rest from rfl]
    rw [ih _ (fun o2 h2 => hall o2 (List.mem_cons_of_mem o h2))]
    have hst := hall o (List.mem_cons_self o rest)
    unfold FileRecoveryV1.recoverOne
    rw [hst]
    cases choices o.documentId <;> rfl

theorem find_id_recoverOne_other_v1 (vault : Vault)
    (choices : String → RecoveryChoice) (run : RecoveryRun)
    (o : LocalDocumentMapping) (d : String) (hne : o.documentId ≠ d) :
    findMappingById (FileRecoveryV1.recoverOne vault choices run o).store d =
      findMappingById run.store d := by
  unfold FileRecoveryV1.recoverOne
  cases hst : FileRecoveryV1.strategyTarget vault o with
  | some f =>
    show findMappingById (FileRecoveryV1.relinkMapping run o f).store d = _
    unfold FileRecoveryV1.relinkMapping updateMapping
    cases hfind : findMappingById run.store o.documentId with
    | none => simp only [hfind]
    | some cur =>
      simp only [hfind]
      have hcurid : cur.documentId = o.documentId := by
        have h2 := List.find?_some hfind
        simpa using h2
      show (mapSet run.store.mappings _).find? (fun x => x.documentId == d) = _
      exact find?_mapSet_other run.store.mappings _ d
        (by simpa [hcurid] using fun heq => hne heq.symm)
  | none =>
    show findMappingById
      (FileRecoveryV1.promptUserForRecovery run o (choices o.documentId)).store d = _
    cases choices o.documentId with
    | relink => rfl
    | recreate => rfl
    | ignore =>
      show (run.store.mappings.filter _).find? (fun x => x.documentId == d) = _
      apply find?_filter_of_imp
      intro x hx
      have hxd : x.documentId = d := by simpa using hx
      simp [hxd]
      exact fun heq => hne heq.symm

theorem find_id_foldl_other_v1 (vault : Vault)
    (choices : String → RecoveryChoice) (d : String) :
    ∀ (os : List LocalDocumentMapping) (run : RecoveryRun),
      (∀ o ∈ os, o.documentId ≠ d) →
      findMappingById (FileRecoveryV1.attemptRecovery vault choices run os).store d =
        findMappingById run.store d := by
  intro os
  induction os with
  | nil => intro run _; rfl
  | cons o rest ih =>
    intro run hall
    rw [show FileRecoveryV1.attemptRecovery vault choices run (o :: rest) =
        FileRecoveryV1.attemptRecovery vault choices
          (FileRecoveryV1.recoverOne vault choices run o) rest from rfl]
    rw [ih _ (fun x hx => hall x (List.mem_cons_of_mem o hx))]
    exact find_id_recoverOne_other_v1 vault choices run o d
      (hall o (List.mem_cons_self o rest))

/-! ### Claim C6 -/

/-- C6 amended: reconcile run twice against an unchanged vault performs zero
relinks on the second run — every mapping relinked by the first run resolves
to an existing file, and a mapping left to the manual modal either was
removed (ignore) or is unchanged and the automatic strategies, which are
deterministic in the vault and the mapping, fail for it again.  (The claim's
parenthetical — that after the first run every mapping resolves or has been
removed — is refuted by the counterexample: the relink and recreate modal
choices are no-ops in this revision, so an unresolved orphan survives.) -/
theorem reconcile_second_run_zero_relinks (vault : Vault) (store : MappingStore)
    (choices1 choices2 : String → RecoveryChoice) :
    (FileRecoveryV1.reconcileMappings vault choices2
      (FileRecoveryV1.reconcileMappings vault choices1 store).store).relinks = [] := by
  have key : ∀ s1 : MappingStore,
      (∀ x ∈ s1.mappings, (getFileByPath vault x.localPath).isSome = true ∨
        FileRecoveryV1.strategyTarget vault x = none) →
      (FileRecoveryV1.reconcileMappings vault choices2 s1).relinks = [] := by
    intro s1 hpost1
    have hall : ∀ o ∈ s1.mappings.filter
        (fun x => !(getFileByPath vault x.localPath).isSome),
        FileRecoveryV1.strategyTarget vault o = none := by
      intro o ho
      obtain ⟨hmem, hpred⟩ := List.mem_filter.mp ho
      rcases hpost1 o hmem with h | h
      · rw [h] at hpred
        simp at hpred
      · exact h
    show (FileRecoveryV1.attemptRecovery vault choices2 ⟨s1, []⟩
      (s1.mappings.filter (fun x => !(getFileByPath vault x.localPath).isSome))).relinks = []
    rw [attemptRecovery_no_relinks_v1 vault choices2 _ _ hall]
  exact key _ (reconcile_postcondition_v1 vault choices1 store)

/-- C6 counterexample: with an empty vault, one orphaned mapping, and the
user answering "relink" in the manual modal (a no-op in this revision), the
first reconcile run leaves the mapping in place and still unresolved — so
"every mapping either resolves to an existing file after the first run or has
been removed" is false — even though the second run still performs zero
relinks. -/
theorem reconcile_unresolved_orphan_counterexample :
    (FileRecoveryV1.reconcileMappings [] (fun _ => RecoveryChoice.relink)
        ⟨[⟨"d1", "gone.md", "t1", "", "gone.md", 0, none⟩], 0⟩).store.mappings =
      [⟨"d1", "gone.md", "t1", "", "gone.md", 0, none⟩] ∧
    (getFileByPath [] ("gone.md")).isSome = false ∧
    (FileRecoveryV1.reconcileMappings [] (fun _ => RecoveryChoice.relink)
        (FileRecoveryV1.reconcileMappings [] (fun _ => RecoveryChoice.relink)
          ⟨[⟨"d1", "gone.md", "t1", "", "gone.md", 0, none⟩], 0⟩).store).relinks =
      [] := by
  decide

/-! ### Claim C3 -/

/-- C3 amended: a mapping whose localPath resolves to no file, whose
lastSyncedHash H is nonempty, is relinked by reconcile to the file B found by
the content-match strategy — provided the basename strategy does not fire
(the number of basename candidates is not exactly one) and B is the first
vault file whose content hashes to H (or scores similarity above 0.9, which
the first revision's constant 0.5 similarity never does).  After the run the
mapping's localPath is B's path.  Without the added conditions the claim
fails: a unique basename candidate preempts the content match (see the
counterexample). -/
theorem reconcile_relinks_by_content (vault : Vault) (store : MappingStore)
    (choices : String → RecoveryChoice) (m : LocalDocumentMapping) (B : TFile)
    (hnd : (store.mappings.map (fun x => x.documentId)).Nodup)
    (hmem : m ∈ store.mappings)
    (horph : (getFileByPath vault m.localPath).isSome = false)
    (hcand : ¬ (FileRecoveryV1.candidatesFor vault m).length = 1)
    (hhash : m.lastSyncedHash ≠ "")
    (hfind : FileRecoveryV1.findByContent vault m = some B) :
    findMappingById (FileRecoveryV1.reconcileMappings vault choices store).store
        m.documentId =
      some { m with lastKnownPath := m.localPath, localPath := B.path } := by
  have hmo : m ∈ store.mappings.filter
      (fun x => !(getFileByPath vault x.localPath).isSome) :=
    List.mem_filter.mpr ⟨hmem, by simp [horph]⟩
  obtain ⟨l1, l2, hsplit⟩ := List.append_of_mem hmo
  have hnd2 : (((l1 ++ m :: l2).map (fun x => x.documentId))).Nodup := by
    rw [← hsplit]
    exact List.Nodup.sublist
      (List.Sublist.map _ (List.filter_sublist store.mappings)) hnd
  rw [List.map_append, List.map_cons] at hnd2
  obtain ⟨hn1, hn2, hdisj⟩ := List.nodup_append.mp hnd2
  have hid1 : ∀ o ∈ l1, o.documentId ≠ m.documentId := by
    intro o ho heq
    exact hdisj (List.mem_map.mpr ⟨o, ho, heq⟩) (List.mem_cons_self _ _)
  have hid2 : ∀ o ∈ l2, o.documentId ≠ m.documentId := by
    intro o ho heq
    rw [List.nodup_cons] at hn2
    exact hn2.1 (heq ▸ List.mem_map.mpr ⟨o, ho, rfl⟩)
  have hst : FileRecoveryV1.strategyTarget vault m = some B := by
    simp only [FileRecoveryV1.strategyTarget]
    rw [if_neg hcand, if_pos (Or.inr hhash), hfind]
  have hmid : findMappingById
      (FileRecoveryV1.attemptRecovery vault choices ⟨store, []⟩ l1).store
      m.documentId = some m := by
    rw [find_id_foldl_other_v1 vault choices m.documentId l1 _ hid1]
    exact find?_eq_of_mem_nodup store.mappings m hnd hmem
  have hafter : findMappingById
      (FileRecoveryV1.recoverOne vault choices
        (FileRecoveryV1.attemptRecovery vault choices ⟨store, []⟩ l1) m).store
      m.documentId =
      some { m with lastKnownPath := m.localPath, localPath := B.path } := by
    rw [show FileRecoveryV1.recoverOne vault choices
        (FileRecoveryV1.attemptRecovery vault choices ⟨store, []⟩ l1) m =
        FileRecoveryV1.relinkMapping
          (FileRecoveryV1.attemptRecovery vault choices ⟨store, []⟩ l1) m B from by
      unfold FileRecoveryV1.recoverOne; rw [hst]]
    unfold FileRecoveryV1.relinkMapping updateMapping
    simp only [hmid]
    show (mapSet _ _).find? (fun x => x.documentId == m.documentId) = _
    exact find?_mapSet_self _
      { m with lastKnownPath := m.localPath, localPath := B.path }
  show findMappingById
      (FileRecoveryV1.attemptRecovery vault choices ⟨store, []⟩
        (store.mappings.filter
          (fun x => !(getFileByPath vault x.localPath).isSome))).store
      m.documentId = _
  rw [hsplit]
  rw [show FileRecoveryV1.attemptRecovery vault choices ⟨store, []⟩ (l1 ++ m :: l2) =
      FileRecoveryV1.attemptRecovery vault choices
        (FileRecoveryV1.recoverOne vault choices
          (FileRecoveryV1.attemptRecovery vault choices ⟨store, []⟩ l1) m) l2 from by
    unfold FileRecoveryV1.attemptRecovery
    rw [List.foldl_append, List.foldl_cons]]
  rw [find_id_foldl_other_v1 vault choices m.documentId l2 _ hid2]
  exact hafter

theorem reconcile_relinks_by_content_witness :
    ((([⟨"d1", "gone.md", "t1", hashContent ("hello"), "A.md", 0, none⟩] :
        List LocalDocumentMapping).map (fun x => x.documentId)).Nodup ∧
      (⟨"d1", "gone.md", "t1", hashContent ("hello"), "A.md", 0, none⟩ :
          LocalDocumentMapping) ∈
        ([⟨"d1", "gone.md", "t1", hashContent ("hello"), "A.md", 0, none⟩] :
          List LocalDocumentMapping) ∧
      (getFileByPath [⟨"B.md", "hello", none⟩] ("gone.md")).isSome = false ∧
      ¬ (FileRecoveryV1.candidatesFor [⟨"B.md", "hello", none⟩]
          ⟨"d1", "gone.md", "t1", hashContent ("hello"), "A.md", 0, none⟩).length = 1 ∧
      hashContent ("hello") ≠ "" ∧
      FileRecoveryV1.findByContent [⟨"B.md", "hello", none⟩]
          ⟨"d1", "gone.md", "t1", hashContent ("hello"), "A.md", 0, none⟩ =
        some ⟨"B.md", "hello", none⟩) ∧
    findMappingById
        (FileRecoveryV1.reconcileMappings [⟨"B.md", "hello", none⟩]
          (fun _ => RecoveryChoice.relink)
          ⟨[⟨"d1", "gone.md", "t1", hashContent ("hello"), "A.md", 0, none⟩],
            0⟩).store ("d1") =
      some ⟨"d1", "B.md", "t1", hashContent ("hello"), "gone.md", 0, none⟩ :=
  ⟨⟨by decide, by decide, by decide, by decide, by decide, by decide⟩,
    reconcile_relinks_by_content [⟨"B.md", "hello", none⟩]
      ⟨[⟨"d1", "gone.md", "t1", hashContent ("hello"), "A.md", 0, none⟩], 0⟩
      (fun _ => RecoveryChoice.relink)
      ⟨"d1", "gone.md", "t1", hashContent ("hello"), "A.md", 0, none⟩
      ⟨"B.md", "hello", none⟩
      (by decide) (by decide) (by decide) (by decide) (by decide) (by decide)⟩

/-- C3 counterexample: all of the claim's hypotheses hold — the mapping is
orphaned, its lastSyncedHash is nonempty, B.md exists with matching hash and
a different basename — yet reconcile relinks to sub/A.md, the unique
basename candidate, and not to B.md. -/
theorem reconcile_content_relink_counterexample :
    (getFileByPath [⟨"sub/A.md", "other", none⟩, ⟨"B.md", "hello", none⟩]
        ("gone.md")).isSome = false ∧
    hashContent ("hello") ≠ "" ∧
    hashContent (("hello" : String)) =
      (⟨"d1", "gone.md", "t1", hashContent ("hello"), "A.md", 0, none⟩ :
        LocalDocumentMapping).lastSyncedHash ∧
    TFile.basename ⟨"B.md", "hello", none⟩ ≠ getBasename ("A.md") ∧
    findMappingById
        (FileRecoveryV1.reconcileMappings
          [⟨"sub/A.md", "other", none⟩, ⟨"B.md", "hello", none⟩]
          (fun _ => RecoveryChoice.relink)
          ⟨[⟨"d1", "gone.md", "t1", hashContent ("hello"), "A.md", 0, none⟩], 0⟩).store
        ("d1") =
      some ⟨"d1", "sub/A.md", "t1", hashContent ("hello"), "gone.md", 0, none⟩ := by
  decide

/-! ### Claim C4 -/

/-- C4 amended: in the second revision of FileRecoveryService, relinkMapping
re-reads the target file's content, recomputes the mapping's lastSyncedHash
from it (so afterwards the stored record's lastSyncedHash is the hash of the
relinked file's current content), sets lastKnownPath to the previous
localPath and localPath to the target's path (the updatePath effect), and
records the relink.  In the first revision relinkMapping only calls
updatePath and leaves lastSyncedHash unchanged — see the counterexample. -/
theorem relink_recomputes_hash_v2 (hashFn : String → String) (run : RecoveryRun)
    (m cur : LocalDocumentMapping) (f : TFile)
    (hfind : findMappingById run.store m.documentId = some cur) :
    findMappingById (FileRecoveryV2.relinkMapping hashFn run m f).store
        m.documentId =
      some { cur with
        lastSyncedHash := hashFn f.content,
        lastKnownPath := cur.localPath,
        localPath := f.path } ∧
    (FileRecoveryV2.relinkMapping hashFn run m f).relinks =
      run.relinks ++ [(m.documentId, f.path)] := by
  have hcurid : cur.documentId = m.documentId := by
    have h2 := List.find?_some hfind
    simpa using h2
  have hg : ∀ x : LocalDocumentMapping,
      ((if x.documentId == m.documentId then
          { x with lastSyncedHash := hashFn f.content } else x) :
        LocalDocumentMapping).documentId = x.documentId := by
    intro x
    by_cases hx : (x.documentId == m.documentId) = true
    · rw [if_pos hx]
    · rw [if_neg hx]
  have hms : (run.store.mappings.map (fun x =>
      if x.documentId == m.documentId then
        { x with lastSyncedHash := hashFn f.content } else x)).find?
        (fun x => x.documentId == m.documentId) =
      some { cur with lastSyncedHash := hashFn f.content } := by
    rw [find?_map_id_preserving _ _ hg m.documentId]
    rw [show run.store.mappings.find? (fun x => x.documentId == m.documentId) =
      some cur from hfind]
    simp [hcurid]
  constructor
  · show findMappingById (updateMapping
      ⟨run.store.mappings.map (fun x =>
        if x.documentId == m.documentId then
          { x with lastSyncedHash := hashFn f.content } else x),
        run.store.saveCount⟩ m.documentId f.path).1 m.documentId = _
    unfold updateMapping
    rw [show findMappingById
        ⟨run.store.mappings.map (fun x =>
          if x.documentId == m.documentId then
            { x with lastSyncedHash := hashFn f.content } else x),
          run.store.saveCount⟩ m.documentId =
        some { cur with lastSyncedHash := hashFn f.content } from hms]
    show (mapSet _ _).find? (fun x => x.documentId == m.documentId) = _
    rw [← hcurid]
    exact find?_mapSet_self _
      { cur with
        lastSyncedHash := hashFn f.content,
        lastKnownPath := cur.localPath,
        localPath := f.path }
  · rfl

theorem relink_recomputes_hash_v2_witness :
    findMappingById (⟨⟨[⟨"d1", "old.md", "t1", "h0", "old.md", 0, none⟩], 0⟩,
        []⟩ : RecoveryRun).store ("d1") =
      some ⟨"d1", "old.md", "t1", "h0", "old.md", 0, none⟩ ∧
    (findMappingById
        (FileRecoveryV2.relinkMapping hashContent
          ⟨⟨[⟨"d1", "old.md", "t1", "h0", "old.md", 0, none⟩], 0⟩, []⟩
          ⟨"d1", "old.md", "t1", "h0", "old.md", 0, none⟩
          ⟨"new.md", "fresh", none⟩).store ("d1") =
      some ⟨"d1", "new.md", "t1", hashContent ("fresh"), "old.md", 0, none⟩ ∧
    (FileRecoveryV2.relinkMapping hashContent
        ⟨⟨[⟨"d1", "old.md", "t1", "h0", "old.md", 0, none⟩], 0⟩, []⟩
        ⟨"d1", "old.md", "t1", "h0", "old.md", 0, none⟩
        ⟨"new.md", "fresh", none⟩).relinks = [(("d1" : String), ("new.md" : String))]) :=
  ⟨by decide,
    relink_recomputes_hash_v2 hashContent
      ⟨⟨[⟨"d1", "old.md", "t1", "h0", "old.md", 0, none⟩], 0⟩, []⟩
      ⟨"d1", "old.md", "t1", "h0", "old.md", 0, none⟩
      ⟨"d1", "old.md", "t1", "h0", "old.md", 0, none⟩
      ⟨"new.md", "fresh", none⟩ (by decide)⟩

/-- C4 counterexample: in the first revision, after reconcile relinks the
orphaned mapping to A.md (content "fresh"), the stored lastSyncedHash is
still the old value "" and differs from the hash of the relinked file's
content — relinkMapping performed no re-read and no hash recomputation. -/
theorem relink_keeps_stale_hash_counterexample :
    findMappingById
        (FileRecoveryV1.reconcileMappings [⟨"A.md", "fresh", none⟩]
          (fun _ => RecoveryChoice.relink)
          ⟨[⟨"d1", "gone.md", "t1", "", "A.md", 0, none⟩], 0⟩).store ("d1") =
      some ⟨"d1", "A.md", "t1", "", "gone.md", 0, none⟩ ∧
    hashContent (("fresh" : String)) ≠ "" := by
  decide

/-! ### Claim C8 -/

/-- C8 amended: when strategy 1 finds exactly one candidate, the mapping is
relinked to it directly, short-circuiting the content, frontmatter and manual
steps, in both revisions.  In the first revision the candidate set is exactly
the vault files whose extension-stripped basename equals the stripped
basename of lastKnownPath, and the relink consults only the target's path
(no file content is read); in the second revision the candidate set is
additionally restricted to files with extension `md` (see the
counterexample), and the relink re-reads the target's content to recompute
the hash. -/
theorem basename_strategy_direct (vault : Vault) (m : LocalDocumentMapping)
    (c : TFile) (run : RecoveryRun) (choices : String → RecoveryChoice)
    (hashFn : String → String)
    (h1 : FileRecoveryV1.candidatesFor vault m = [c])
    (h2 : FileRecoveryV2.candidatesFor vault m = [c]) :
    (FileRecoveryV1.candidatesFor vault m =
      vault.filter (fun f => f.basename == getBasename m.lastKnownPath) ∧
      FileRecoveryV1.recoverOne vault choices run m =
        FileRecoveryV1.relinkMapping run m c) ∧
    (∀ (run2 : RecoveryRun) (f f' : TFile), f.path = f'.path →
      FileRecoveryV1.relinkMapping run2 m f =
        FileRecoveryV1.relinkMapping run2 m f') ∧
    FileRecoveryV2.recoverOne hashFn vault run m =
      (FileRecoveryV2.relinkMapping hashFn run m c,
        FileRecoveryV2.Outcome.relinkedTo c) := by
  refine ⟨⟨rfl, ?_⟩, ?_, ?_⟩
  · have hst : FileRecoveryV1.strategyTarget vault m = some c := by
      simp only [FileRecoveryV1.strategyTarget, h1]
      simp
    unfold FileRecoveryV1.recoverOne
    rw [hst]
  · intro run2 f f' hff
    unfold FileRecoveryV1.relinkMapping
    rw [hff]
  · have hst : FileRecoveryV2.strategyTarget hashFn vault m = some c := by
      simp only [FileRecoveryV2.strategyTarget, h2]
      simp
    unfold FileRecoveryV2.recoverOne
    rw [hst]

theorem basename_strategy_direct_witness :
    FileRecoveryV1.candidatesFor [⟨"A.md", "x", none⟩]
        ⟨"d1", "gone.md", "t1", "", "A.md", 0, none⟩ = [⟨"A.md", "x", none⟩] ∧
    FileRecoveryV2.candidatesFor [⟨"A.md", "x", none⟩]
        ⟨"d1", "gone.md", "t1", "", "A.md", 0, none⟩ = [⟨"A.md", "x", none⟩] ∧
    ((FileRecoveryV1.candidatesFor [⟨"A.md", "x", none⟩]
        ⟨"d1", "gone.md", "t1", "", "A.md", 0, none⟩ =
      [⟨"A.md", "x", none⟩].filter
        (fun f => f.basename ==
          getBasename (⟨"d1", "gone.md", "t1", "", "A.md", 0, none⟩ :
            LocalDocumentMapping).lastKnownPath) ∧
      FileRecoveryV1.recoverOne [⟨"A.md", "x", none⟩]
          (fun _ => RecoveryChoice.relink) ⟨⟨[], 0⟩, []⟩
          ⟨"d1", "gone.md", "t1", "", "A.md", 0, none⟩ =
        FileRecoveryV1.relinkMapping ⟨⟨[], 0⟩, []⟩
          ⟨"d1", "gone.md", "t1", "", "A.md", 0, none⟩ ⟨"A.md", "x", none⟩) ∧
    (∀ (run2 : RecoveryRun) (f f' : TFile), f.path = f'.path →
      FileRecoveryV1.relinkMapping run2
          ⟨"d1", "gone.md", "t1", "", "A.md", 0, none⟩ f =
        FileRecoveryV1.relinkMapping run2
          ⟨"d1", "gone.md", "t1", "", "A.md", 0, none⟩ f') ∧
    FileRecoveryV2.recoverOne hashContent [⟨"A.md", "x", none⟩] ⟨⟨[], 0⟩, []⟩
        ⟨"d1", "gone.md", "t1", "", "A.md", 0, none⟩ =
      (FileRecoveryV2.relinkMapping hashContent ⟨⟨[], 0⟩, []⟩
          ⟨"d1", "gone.md", "t1", "", "A.md", 0, none⟩ ⟨"A.md", "x", none⟩,
        FileRecoveryV2.Outcome.relinkedTo ⟨"A.md", "x", none⟩)) :=
  ⟨by decide, by decide,
    basename_strategy_direct [⟨"A.md", "x", none⟩]
      ⟨"d1", "gone.md", "t1", "", "A.md", 0, none⟩ ⟨"A.md", "x", none⟩
      ⟨⟨[], 0⟩, []⟩ (fun _ => RecoveryChoice.relink) hashContent
      (by decide) (by decide)⟩

/-- C8 counterexample: in the second revision the candidate set is not "all
files whose stripped basename matches": a file A.txt with matching basename
is excluded by the markdown-extension filter, while the first revision (and
the claim) includes it. -/
theorem candidates_md_filter_counterexample :
    FileRecoveryV1.candidatesFor [⟨"A.txt", "x", none⟩]
        ⟨"d1", "gone.md", "t1", "", "A.md", 0, none⟩ =
      [⟨"A.txt", "x", none⟩] ∧
    FileRecoveryV2.candidatesFor [⟨"A.txt", "x", none⟩]
        ⟨"d1", "gone.md", "t1", "", "A.md", 0, none⟩ = [] := by
  decide

/-! ### Claim C9 -/

theorem decDigit_ne_underscore (n : Nat) : decDigit n ≠ '_' := by
  unfold decDigit
  split_ifs <;> decide

theorem underscore_not_mem_decCharsAux (fuel n : Nat) :
    '_' ∉ decCharsAux fuel n := by
  induction fuel generalizing n with
  | zero => simp [decCharsAux]
  | succ fuel ih =>
    intro hmem
    unfold decCharsAux at hmem
    split at hmem
    · rw [List.mem_singleton] at hmem
      exact decDigit_ne_underscore n hmem.symm
    · rcases List.mem_append.mp hmem with h | h
      · exact ih (n / 10) h
      · rw [List.mem_singleton] at h
        exact decDigit_ne_underscore (n % 10) h.symm

theorem underscore_not_mem_decChars (n : Nat) : '_' ∉ decChars n :=
  underscore_not_mem_decCharsAux (n + 1) n

theorem decVal_decDigit (n : Nat) (h : n < 10) : decVal (decDigit n) = n := by
  interval_cases n <;> decide

theorem decodeChars_append_digit (l : List Char) (c : Char) :
    decodeChars (l ++ [c]) = decodeChars l * 10 + decVal c := by
  unfold decodeChars
  rw [List.foldl_append]
  rfl

theorem decodeChars_decCharsAux (fuel n : Nat) (h : n < fuel) :
    decodeChars (decCharsAux fuel n) = n := by
  induction fuel generalizing n with
  | zero => omega
  | succ fuel ih =>
    unfold decCharsAux
    split
    · rename_i hn
      have h1 : decodeChars [decDigit n] = 0 * 10 + decVal (decDigit n) := rfl
      rw [h1, decVal_decDigit n hn]
      omega
    · rename_i hn
      have hdiv : n / 10 < n := Nat.div_lt_self (by omega) (by norm_num)
      rw [decodeChars_append_digit, ih (n / 10) (by omega),
        decVal_decDigit (n % 10) (Nat.mod_lt n (by norm_num))]
      omega

theorem decChars_inj (n1 n2 : Nat) (h : decChars n1 = decChars n2) : n1 = n2 := by
  have h1 := decodeChars_decCharsAux (n1 + 1) n1 (by omega)
  have h2 := decodeChars_decCharsAux (n2 + 1) n2 (by omega)
  unfold decChars at h
  rw [h, h2] at h1
  exact h1.symm

theorem append_sep_inj (a1 : List Char) :
    ∀ (a2 b1 b2 : List Char), '_' ∉ a1 → '_' ∉ a2 →
      a1 ++ '_' :: b1 = a2 ++ '_' :: b2 → a1 = a2 ∧ b1 = b2 := by
  induction a1 with
  | nil =>
    intro a2 b1 b2 _ ha2 h
    cases a2 with
    | nil => simpa using h
    | cons c cs =>
      simp only [List.nil_append, List.cons_append, List.cons.injEq] at h
      exact absurd (h.1 ▸ List.mem_cons_self c cs) ha2
  | cons c cs ih =>
    intro a2 b1 b2 ha1 ha2 h
    cases a2 with
    | nil =>
      simp only [List.cons_append, List.nil_append, List.cons.injEq] at h
      exact absurd (h.1 ▸ List.mem_cons_self c cs) ha1
    | cons d ds =>
      simp only [List.cons_append, List.cons.injEq] at h
      obtain ⟨hcd, htail⟩ := h
      have hacs : '_' ∉ cs := fun hx => ha1 (List.mem_cons_of_mem c hx)
      have hads : '_' ∉ ds := fun hx => ha2 (List.mem_cons_of_mem d hx)
      obtain ⟨he, hb⟩ := ih ds b1 b2 hacs hads htail
      exact ⟨by rw [hcd, he], hb⟩

theorem generateDocumentId_inj (now1 now2 : Nat) (rand1 rand2 : String)
    (h : generateDocumentId now1 rand1 = generateDocumentId now2 rand2) :
    now1 = now2 ∧ rand1 = rand2 := by
  unfold generateDocumentId at h
  have hdata : ('d' :: 'o' :: 'c' :: '_' :: decChars now1) ++ '_' :: rand1.data =
      ('d' :: 'o' :: 'c' :: '_' :: decChars now2) ++ '_' :: rand2.data := by
    have h2 := congrArg String.data h
    simpa using h2
  simp only [List.cons_append, List.cons.injEq, true_and] at hdata
  obtain ⟨hd, hr⟩ := append_sep_inj (decChars now1) (decChars now2)
    rand1.data rand2.data (underscore_not_mem_decChars now1)
    (underscore_not_mem_decChars now2) hdata
  refine ⟨decChars_inj _ _ hd, ?_⟩
  cases rand1
  cases rand2
  exact congrArg String.mk (by simpa using hr)

/-- C9 amended: two create (share) calls return distinct documentIds whenever
their `(Date.now(), Math.random())` draws differ as pairs (generateDocumentId
is injective in those inputs) — equal draws give equal ids, see the
counterexample — and immediately after a create returns, findById on the
returned id yields the freshly stored mapping, whose localPath is the shared
file's path. -/
theorem share_unique_ids_and_findById (now1 now2 : Nat) (rand1 rand2 : String) :
    (¬ (now1 = now2 ∧ rand1 = rand2) →
      generateDocumentId now1 rand1 ≠ generateDocumentId now2 rand2) ∧
    (∀ (s : MappingStore) (filePath content teamId userId : String)
        (now : Nat) (rand : String),
      findMappingById (shareNewDocument s filePath content teamId userId now rand).2
          (shareNewDocument s filePath content teamId userId now rand).1 =
        some ⟨generateDocumentId now rand, filePath, teamId, hashContent content,
          filePath, now, some userId⟩) := by
  constructor
  · intro hne heq
    exact hne (generateDocumentId_inj now1 now2 rand1 rand2 heq)
  · intro s filePath content teamId userId now rand
    exact find?_mapSet_self s.mappings
      ⟨generateDocumentId now rand, filePath, teamId, hashContent content,
        filePath, now, some userId⟩

theorem share_unique_ids_and_findById_witness :
    ¬ ((1 : Nat) = 2 ∧ ("a" : String) = ("a")) ∧
    generateDocumentId 1 ("a") ≠ generateDocumentId 2 ("a") ∧
    findMappingById (shareNewDocument ⟨[], 0⟩ ("a.md") ("x") ("t1") ("u1") 5
          ("r")).2
        (shareNewDocument ⟨[], 0⟩ ("a.md") ("x") ("t1") ("u1") 5 ("r")).1 =
      some ⟨generateDocumentId 5 ("r"), "a.md", "t1", hashContent ("x"), "a.md", 5,
        some ("u1")⟩ :=
  ⟨by decide, (share_unique_ids_and_findById 1 2 ("a") ("a")).1 (by decide),
    (share_unique_ids_and_findById 1 2 ("a") ("a")).2 ⟨[], 0⟩ ("a.md") ("x")
      ("t1") ("u1") 5 ("r")⟩

/-- C9 counterexample: two successive create calls made with the same
`Date.now()` timestamp and the same random draw return the same documentId,
and the second call's mapping silently overwrites the first (the store holds
one record, not two), so the returned ids are not unconditionally unique. -/
theorem share_duplicate_id_counterexample :
    (shareNewDocument ⟨[], 0⟩ ("a.md") ("x") ("t1") ("u1") 5 ("r")).1 =
      (shareNewDocument
        (shareNewDocument ⟨[], 0⟩ ("a.md") ("x") ("t1") ("u1") 5 ("r")).2
        ("b.md") ("y") ("t1") ("u1") 5 ("r")).1 ∧
    (shareNewDocument
        (shareNewDocument ⟨[], 0⟩ ("a.md") ("x") ("t1") ("u1") 5 ("r")).2
        ("b.md") ("y") ("t1") ("u1") 5 ("r")).2.mappings.length = 1 := by
  decide

/-! ### Claim C10 -/

/-- C10: hashContent is a pure deterministic function of the content string
(identical strings give identical hash strings), the empty string hashes to
"0", and every returned value is the decimal string of a signed 32-bit
integer (the accumulator is truncated to 32 bits at each step). -/
theorem hashContent_pure_and_bounded (s t : String) (h : s = t) :
    hashContent s = hashContent t ∧
    hashContent ("") = ("0") ∧
    ∃ n : Int, -2 ^ 31 ≤ n ∧ n < 2 ^ 31 ∧ hashContent s = toString n := by
  refine ⟨by rw [h], by decide, ?_⟩
  unfold hashContent
  split
  · exact ⟨0, by norm_num, by norm_num, rfl⟩
  · obtain ⟨h1, h2⟩ := hashVal_bounds (s.data.map (fun c => c.toNat))
    exact ⟨_, h1, h2, rfl⟩

theorem hashContent_pure_and_bounded_witness :
    ("ab" : String) = ("ab") ∧
    (hashContent ("ab") = hashContent ("ab") ∧
      hashContent ("") = ("0") ∧
      ∃ n : Int, -2 ^ 31 ≤ n ∧ n < 2 ^ 31 ∧ hashContent ("ab") = toString n) :=
  ⟨rfl, hashContent_pure_and_bounded ("ab") ("ab") rfl⟩

/-! ### Claim C5 -/

/-- C5: for a known documentId, updateMapping sets lastKnownPath to the
current localPath and then localPath to the new path, leaving documentId,
teamId, lastSyncedHash, sharedAt and sharedBy unchanged; for an unknown
documentId it fails with NotFoundError and the store (mapping table and save
count) is unchanged. -/
theorem updateMapping_spec (s : MappingStore) (documentId newPath : String) :
    (∀ m, findMappingById s documentId = some m →
      (updateMapping s documentId newPath).2 = none ∧
      ∃ r, findMappingById (updateMapping s documentId newPath).1 documentId = some r ∧
        r.documentId = m.documentId ∧ r.teamId = m.teamId ∧
        r.lastSyncedHash = m.lastSyncedHash ∧ r.sharedAt = m.sharedAt ∧
        r.sharedBy = m.sharedBy ∧ r.lastKnownPath = m.localPath ∧
        r.localPath = newPath) ∧
    (findMappingById s documentId = none →
      updateMapping s documentId newPath = (s, some SyncError.NotFoundError)) := by
  constructor
  · intro m hm
    have hid : m.documentId = documentId := by
      have h1 := List.find?_some hm
      simpa using h1
    have hupd : updateMapping s documentId newPath =
        (⟨mapSet s.mappings
            { m with lastKnownPath := m.localPath, localPath := newPath },
          s.saveCount + 1⟩, none) := by
      unfold updateMapping
      rw [hm]
    refine ⟨by rw [hupd],
      { m with lastKnownPath := m.localPath, localPath := newPath },
      ?_, rfl, rfl, rfl, rfl, rfl, rfl, rfl⟩
    rw [hupd]
    show (mapSet s.mappings _).find? (fun x => x.documentId == documentId) = _
    rw [← hid]
    exact find?_mapSet_self s.mappings
      { m with lastKnownPath := m.localPath, localPath := newPath }
  · intro hm
    unfold updateMapping
    rw [hm]

theorem updateMapping_spec_witness :
    (findMappingById ⟨[⟨"d1", "a.md", "t1", "h1", "a.md", 7, none⟩], 0⟩ ("d1") =
        some ⟨"d1", "a.md", "t1", "h1", "a.md", 7, none⟩ ∧
      ((updateMapping ⟨[⟨"d1", "a.md", "t1", "h1", "a.md", 7, none⟩], 0⟩
          ("d1") ("b.md")).2 = none ∧
        ∃ r, findMappingById
            (updateMapping ⟨[⟨"d1", "a.md", "t1", "h1", "a.md", 7, none⟩], 0⟩
              ("d1") ("b.md")).1 ("d1") = some r ∧
          r.documentId = ("d1") ∧ r.teamId = ("t1") ∧
          r.lastSyncedHash = ("h1") ∧ r.sharedAt = 7 ∧
          r.sharedBy = none ∧ r.lastKnownPath = ("a.md") ∧
          r.localPath = ("b.md"))) ∧
    (findMappingById ⟨[], 3⟩ ("d9") = none ∧
      updateMapping ⟨[], 3⟩ ("d9") ("b.md") =
        (⟨[], 3⟩, some SyncError.NotFoundError)) :=
  ⟨⟨by decide,
      (updateMapping_spec ⟨[⟨"d1", "a.md", "t1", "h1", "a.md", 7, none⟩], 0⟩
        ("d1") ("b.md")).1 ⟨"d1", "a.md", "t1", "h1", "a.md", 7, none⟩ (by decide)⟩,
    ⟨by decide,
      (updateMapping_spec ⟨[], 3⟩ ("d9") ("b.md")).2 (by decide)⟩⟩

/-! ### Claim C7 -/

/-- C7: joinSharedDocument fails with ConflictError when the documentId is
already mapped, fails with InvalidArgument when the id is unmapped and the
localPath is absent or empty, in both failure cases returns the store
unchanged (no record added, save hook not invoked), and succeeds exactly when
the id is unmapped and the localPath is nonempty. -/
theorem joinSharedDocument_spec (s : MappingStore) (documentId teamId : String)
    (localPath : Option String) (now : Nat) :
    ((findMappingById s documentId).isSome →
      joinSharedDocument s documentId teamId localPath now =
        (s, some SyncError.ConflictError)) ∧
    (findMappingById s documentId = none →
      (localPath = none ∨ localPath = some "") →
      joinSharedDocument s documentId teamId localPath now =
        (s, some SyncError.InvalidArgument)) ∧
    ((joinSharedDocument s documentId teamId localPath now).2 = none ↔
      findMappingById s documentId = none ∧
        ∃ p, localPath = some p ∧ p ≠ "") := by
  refine ⟨fun h => ?_, fun h hp => ?_, ?_, ?_⟩
  · unfold joinSharedDocument
    rw [if_pos h]
  · unfold joinSharedDocument
    rcases hp with hp | hp <;> subst hp <;> simp [h]
  · intro hnone2
    unfold joinSharedDocument at hnone2
    by_cases h : (findMappingById s documentId).isSome
    · rw [if_pos h] at hnone2
      simp at hnone2
    · rw [if_neg h] at hnone2
      cases hl : localPath with
      | none => rw [hl] at hnone2; simp at hnone2
      | some p =>
        rw [hl] at hnone2
        by_cases hpe : p = ""
        · subst hpe
          simp at hnone2
        · exact ⟨Option.not_isSome_iff_eq_none.mp h, p, rfl, hpe⟩
  · rintro ⟨h1, p, hp, hpne⟩
    unfold joinSharedDocument
    subst hp
    simp [h1, hpne]

theorem joinSharedDocument_spec_witness :
    ((findMappingById ⟨[⟨"d1", "a.md", "t1", "h1", "a.md", 7, none⟩], 0⟩
        ("d1")).isSome ∧
      joinSharedDocument ⟨[⟨"d1", "a.md", "t1", "h1", "a.md", 7, none⟩], 0⟩
          ("d1") ("t1") (some ("z.md")) 9 =
        (⟨[⟨"d1", "a.md", "t1", "h1", "a.md", 7, none⟩], 0⟩,
          some SyncError.ConflictError)) ∧
    (findMappingById ⟨[], 2⟩ ("d2") = none ∧
      (some ("") = (none : Option String) ∨ some ("") = some ("")) ∧
      joinSharedDocument ⟨[], 2⟩ ("d2") ("t1") (some ("")) 9 =
        (⟨[], 2⟩, some SyncError.InvalidArgument)) :=
  ⟨⟨by decide,
      (joinSharedDocument_spec ⟨[⟨"d1", "a.md", "t1", "h1", "a.md", 7, none⟩], 0⟩
        ("d1") ("t1") (some ("z.md")) 9).1 (by decide)⟩,
    ⟨by decide, Or.inr rfl,
      (joinSharedDocument_spec ⟨[], 2⟩ ("d2") ("t1") (some ("")) 9).2.1
        (by decide) (Or.inr rfl)⟩⟩

end Hivemind
